import Mathlib

/-!
# Ontology chooser (`src/ontology-chooser.js`)

A shallow embedding of the client logic of the ontology chooser: the parser of
the term service's delimited text (`parseData`), the hidden companion fields
(`setInputValue`, `getInputValue`), the clipboard (`copy`, `paste`) and the
suggestion cache consulted by the autocomplete `source` callback.

JavaScript strings are lists of characters.  The values a JavaScript variable
of this program can hold are `undefined`, `null` and strings (`JSVal`).
The platform functions the script calls (`String.prototype.split`, `$.trim`,
string concatenation, `RegExp`, the part of jQuery's DOM handling used) are
modelled next to the functions that call them; each states what it covers.
Where only a fragment of a platform function is embedded (regular expressions
without syntax characters, markup of the shape `setInputValue` builds), the
behaviour outside the fragment is a parameter (`Platform`), and the general
statements hold for every value of it.
-/

namespace OntologyChooser

/-! ## JavaScript values and string primitives -/

/-- JavaScript strings. -/
abbrev Str := List Char

/-- The JavaScript values that occur in the program. -/
inductive JSVal where
  | undefined
  | null
  | str (s : Str)
  deriving DecidableEq

/-- Conversion applied by `+` when a value is concatenated to a string. -/
def JSVal.toStr : JSVal → Str
  | .undefined => "undefined".toList
  | .null => "null".toList
  | .str s => s

/-- Truthiness of a value in an `if`, `&&` or `!`: `undefined`, `null` and the
empty string are falsy, every other string is truthy. -/
def JSVal.truthy : JSVal → Bool
  | .str s => !s.isEmpty
  | _ => false

/-- Tests whether `p` occurs in `s` as a contiguous run of characters
(`s.indexOf(p) >= 0`). -/
def occursIn (p : Str) : Str → Bool
  | [] => p.isEmpty
  | c :: cs => p.isPrefixOf (c :: cs) || occursIn p cs

/-- Scanning loop of `String.prototype.split` for a non-empty string separator.
`cur` is the text of the piece being read; `skip` counts the characters of a
separator just found that are still to be passed over.  At each position the
separator is looked for; where it is found the piece ends and the scan resumes
right after the separator, so occurrences are taken leftmost first and do not
overlap.  The piece in progress is emitted at the end of the text. -/
def splitGo (sep : Str) : Nat → Str → Str → List Str
  | _, [], cur => [cur]
  | skip + 1, _ :: cs, cur => splitGo sep skip cs cur
  | 0, c :: cs, cur =>
    if sep.isPrefixOf (c :: cs) then cur :: splitGo sep (sep.length - 1) cs []
    else splitGo sep 0 cs (cur ++ [c])

/-- The call `s.split(sep)` for a non-empty string separator `sep`. -/
def split (s sep : Str) : List Str := splitGo sep 0 s []

/-- The characters matched by `\s` (white space and line terminators of
ECMAScript 5), which `$.trim` removes.  Engines that follow an older Unicode
version also count U+180E, which is not listed. -/
def isWhitespace (c : Char) : Bool :=
  c.toNat ∈ [0x9, 0xA, 0xB, 0xC, 0xD, 0x20, 0xA0, 0x1680, 0x2000, 0x2001, 0x2002,
    0x2003, 0x2004, 0x2005, 0x2006, 0x2007, 0x2008, 0x2009, 0x200A, 0x2028,
    0x2029, 0x202F, 0x205F, 0x3000, 0xFEFF]

/-- The call `$.trim(s)`: `s` without its leading and trailing white space. -/
def trim (s : Str) : Str :=
  ((s.dropWhile isWhitespace).reverse.dropWhile isWhitespace).reverse

/-- Array indexing `cols[i]`: `undefined` outside the array, also for a
negative index. -/
def index (cols : List Str) (i : Int) : JSVal :=
  if i < 0 then .undefined
  else match cols.get? i.toNat with
    | some s => .str s
    | none => .undefined

/-! ## `parseData` -/

/-- Record separator of the service's text format. -/
def recordSep : Str := "~!~".toList

/-- Column separator of the service's text format. -/
def columnSep : Str := "|".toList

/-- One parsed suggestion: the object literal built in `parseData`. -/
structure TermRecord where
  value : JSVal
  label : Str
  preferred_name : JSVal
  concept_id : JSVal
  ontology_id : JSVal
  full_id : JSVal
  ncbo_id : JSVal
  deriving DecidableEq

/-- The `ncbo_id` chosen for a row: column 8 when the row has more than eight
columns, the `ontology_ids` argument otherwise. -/
def rowNcboId (cols : List Str) (ontology_ids : JSVal) : JSVal :=
  if cols.length > 8 then index cols 8 else ontology_ids

/-- The `label` of a row, a concatenation of markup with columns 0, 2 and the
second to last. -/
def rowLabel (cols : List Str) : Str :=
  (index cols 0).toStr ++ " <span class=\"about\">(".toList ++ (index cols 2).toStr
    ++ ")</span> <span class=\"from\">from: ".toList
    ++ (index cols ((cols.length : Int) - 2)).toStr ++ "</span>".toList

/-- The record appended for a non-blank row with columns `cols`. -/
def rowRecord (cols : List Str) (ontology_ids : JSVal) : TermRecord where
  value := index cols 0
  label := rowLabel cols
  preferred_name := index cols 0
  concept_id := index cols 1
  ontology_id := index cols 3
  full_id := index cols 4
  ncbo_id := rowNcboId cols ontology_ids

/-- The `for` loop of `parseData` over the remaining `rows`, with the array
`parsed` built so far: a row is trimmed, and when something is left it is split
into columns and its record is appended. -/
def parseRows (ontology_ids : JSVal) : List Str → List TermRecord → List TermRecord
  | [], parsed => parsed
  | r :: rows, parsed =>
    let row := trim r
    if row.isEmpty then parseRows ontology_ids rows parsed
    else parseRows ontology_ids rows
      (parsed ++ [rowRecord (split row columnSep) ontology_ids])

/-- The function `parseData(data, ontology_ids)` on a string `data`. -/
def parseData (data : Str) (ontology_ids : JSVal) : List TermRecord :=
  parseRows ontology_ids (split data recordSep) []

/-! ## Outcomes of a call -/

/-- Why a call does not return normally.  `typeError` and `syntaxError` are the
exceptions JavaScript throws; `unmodelled` marks an input on which the
behaviour of a platform function is outside the fragment embedded here. -/
inductive Failure where
  | typeError
  | syntaxError
  | unmodelled
  deriving DecidableEq

/-- Result of a call that may throw. -/
abbrev Run (α : Type) := Except Failure α

instance instDecidableEqRun {α : Type} [DecidableEq α] : DecidableEq (Run α)
  | .ok a, .ok b => if h : a = b then isTrue (by rw [h]) else isFalse (by
      intro e; cases e; exact h rfl)
  | .error a, .error b => if h : a = b then isTrue (by rw [h]) else isFalse (by
      intro e; cases e; exact h rfl)
  | .ok _, .error _ => isFalse (by intro e; cases e)
  | .error _, .ok _ => isFalse (by intro e; cases e)

/-! ## The input elements around a field -/

/-- An `input` element as far as the script reads and writes it: its `name`
and `rel` attributes (absent or a text), whether its type is `hidden` (else
it is a text input) and its current value.  Classes and styles are not part
of the modelled state. -/
structure InputEl where
  name : Option Str
  rel : Option Str
  hidden : Bool
  value : Str
  deriving DecidableEq

/-- Line breaks: the line feed and the carriage return. -/
def lineBreak (c : Char) : Bool :=
  c.toNat ∈ [10, 13]

/-- The assignment `this.value = v` made by the setter `.val(v)`: a hidden
input holds the text as given, a text input drops the line breaks. -/
def setValue (el : InputEl) (v : Str) : InputEl :=
  { el with value := if el.hidden then v else v.filter (fun c => !lineBreak c) }

/-- The getter `.val()` of jQuery: the value of the element with every
carriage return removed. -/
def valGet (el : InputEl) : Str :=
  el.value.filter (fun c => !(c.toNat == 13))

/-- A field together with the other `input` elements below its parent, in
document order: those before it, the field, those after it.  This is the
range of `inputElement.parent().find("input[...]")`. -/
structure Scope where
  before : List InputEl
  field : InputEl
  after : List InputEl
  deriving DecidableEq

/-- All inputs below the parent of the field, in document order. -/
def Scope.inputs (sc : Scope) : List InputEl :=
  sc.before ++ sc.field :: sc.after

/-- The result of `inputElement.attr(...)`: `undefined` for an absent
attribute. -/
def attr (a : Option Str) : JSVal :=
  match a with
  | some s => .str s
  | none => .undefined

/-- The name of a companion field:
`inputElement.attr('name') + '-' + name`. -/
def elementName (primaryName : JSVal) (name : Str) : Str :=
  primaryName.toStr ++ "-".toList ++ name

/-- The four companion names the script uses. -/
def companionNames : List Str :=
  ["concept_id".toList, "ontology_id".toList, "ncbo_id".toList, "full_id".toList]

/-- Tests whether the `name` attribute of an element is `n`. -/
def hasName (n : Str) (el : InputEl) : Bool :=
  decide (el.name = some n)

/-- The inputs below the parent of the field whose `name` attribute is `n`, in
document order. -/
def inputsNamed (sc : Scope) (n : Str) : List InputEl :=
  sc.inputs.filter (hasName n)

/-- The characters that stand for themselves between the apostrophes of the
selector `input[name='...']`: printable characters other than the apostrophe,
the double quote and the backslash. -/
def selectorPlain (c : Char) : Bool :=
  decide (32 ≤ c.toNat) && !(c.toNat ∈ [34, 39, 92])

/-- The jQuery call `inputElement.parent().find("input[name='" + n + "']")`.
For a name of `selectorPlain` characters the selector matches the inputs
whose `name` attribute is `n`; the reading of other selector texts is
`unmodelled`. -/
def find (sc : Scope) (n : Str) : Run (List InputEl) :=
  if n.all selectorPlain then .ok (inputsNamed sc n) else .error .unmodelled

/-- The text assigned by the setter `.val(value)` of jQuery (1.4.3 and later):
`null` and `undefined` are assigned as the empty string. -/
def valArg : JSVal → Str
  | .str s => s
  | _ => []

/-- Sets the value of the first element of a list that matches
`input[name='n']`; `none` when no element matches. -/
def setFirst (n : Str) (v : Str) : List InputEl → Option (List InputEl)
  | [] => none
  | el :: els =>
    if hasName n el then some (setValue el v :: els)
    else (setFirst n v els).map (fun r => el :: r)

/-- The call `$(searchElement[0]).val(value)` on the first match of
`input[name='n']` in document order: among the inputs before the field, else
the field itself, else among the inputs after it. -/
def setFirstInScope (sc : Scope) (n : Str) (v : Str) : Scope :=
  match setFirst n v sc.before with
  | some b => { sc with before := b }
  | none =>
    if hasName n sc.field then { sc with field := setValue sc.field v }
    else match setFirst n v sc.after with
      | some a => { sc with after := a }
      | none => sc

/-! ## Markup inserted by `setInputValue`

`inputElement.after(html)` hands the text `html` to the browser's HTML parser
and inserts the elements it yields right after the field.  The parser is
embedded for markup made of `input` tags closed by `/>` whose attributes have
lowercase names and double-quoted values, which is the shape of the text that
`setInputValue` builds.  For other markup the elements are those the
`Platform` parameter gives. -/

/-- The double quote character. -/
def dquote : Char := Char.ofNat 34

/-- The characters an attribute value is read through unchanged: printable
characters other than the double quote (which ends the value), `&` (which
starts a character reference) and the angle brackets (which jQuery's
rewriting of self-closing tags looks at). -/
def attrPlain (c : Char) : Bool :=
  decide (32 ≤ c.toNat) && !(c == dquote) && !(c == '&') && !(c == '<') && !(c == '>')

/-- States of the tag tokenizer. -/
inductive Mode where
  | data
  | tagName (expected : Str)
  | afterTagName
  | beforeAttr
  | attrName (n : Str)
  | beforeValue (n : Str)
  | attrValue (n v : Str)
  | afterValue
  | selfClosing
  deriving DecidableEq

/-- Adds an attribute to those of the tag being read; a repeated attribute
name is ignored, the first occurrence stands. -/
def addAttr (attrs : List (Str × Str)) (n v : Str) : List (Str × Str) :=
  if (attrs.lookup n).isSome then attrs else attrs ++ [(n, v)]

/-- The element for an `input` tag with the given attributes.  Only hidden
inputs are embedded; their value is the `value` attribute, empty when
absent. -/
def mkInput (attrs : List (Str × Str)) : Run InputEl :=
  if attrs.lookup "type".toList = some "hidden".toList then
    .ok { name := attrs.lookup "name".toList, rel := attrs.lookup "rel".toList,
          hidden := true, value := (attrs.lookup "value".toList).getD [] }
  else .error .unmodelled

/-- One step of the tokenizer on the character `c`: the next state, the
attributes of the tag being read, and the elements completed so far. -/
def htmlStep (m : Mode) (attrs : List (Str × Str)) (done : List InputEl) (c : Char) :
    Run (Mode × List (Str × Str) × List InputEl) :=
  match m with
  | .data => if c = '<' then .ok (.tagName "input".toList, [], done) else .error .unmodelled
  | .tagName [] => .error .unmodelled
  | .tagName [e] => if c = e then .ok (.afterTagName, attrs, done) else .error .unmodelled
  | .tagName (e :: es) => if c = e then .ok (.tagName es, attrs, done) else .error .unmodelled
  | .afterTagName =>
    if c = ' ' then .ok (.beforeAttr, attrs, done)
    else if c = '/' then .ok (.selfClosing, attrs, done)
    else .error .unmodelled
  | .beforeAttr =>
    if c = ' ' then .ok (.beforeAttr, attrs, done)
    else if c = '/' then .ok (.selfClosing, attrs, done)
    else if c.isLower then .ok (.attrName [c], attrs, done)
    else .error .unmodelled
  | .attrName n =>
    if c = '=' then .ok (.beforeValue n, attrs, done)
    else if c.isLower then .ok (.attrName (n ++ [c]), attrs, done)
    else .error .unmodelled
  | .beforeValue n =>
    if c = dquote then .ok (.attrValue n [], attrs, done) else .error .unmodelled
  | .attrValue n v =>
    if c = dquote then .ok (.afterValue, addAttr attrs n v, done)
    else if attrPlain c then .ok (.attrValue n (v ++ [c]), attrs, done)
    else .error .unmodelled
  | .afterValue =>
    if c = ' ' then .ok (.beforeAttr, attrs, done)
    else if c = '/' then .ok (.selfClosing, attrs, done)
    else if c.isLower then .ok (.attrName [c], attrs, done)
    else .error .unmodelled
  | .selfClosing =>
    if c = '>' then
      match mkInput attrs with
      | .ok el => .ok (.data, [], done ++ [el])
      | .error e => .error e
    else .error .unmodelled

/-- Runs the tokenizer over a text, from a state to the state reached. -/
def htmlFold : Mode → List (Str × Str) → List InputEl → Str →
    Run (Mode × List (Str × Str) × List InputEl)
  | m, attrs, done, [] => .ok (m, attrs, done)
  | m, attrs, done, c :: cs =>
    match htmlStep m attrs done c with
    | .ok (m1, attrs1, done1) => htmlFold m1 attrs1 done1 cs
    | .error e => .error e

/-- The elements the browser builds from markup `html` of the embedded shape;
the markup must end between tags. -/
def parseInputs (html : Str) : Run (List InputEl) :=
  match htmlFold .data [] [] html with
  | .ok (m, _, done) => if m = .data then .ok done else .error .unmodelled
  | .error e => .error e

/-- The behaviour of the platform outside the fragments embedded here, taken
as a parameter: `regExp` is the constructor `new RegExp(source)` for a source
with syntax characters, giving the exception thrown or the compiled pattern as
the test "has a match in"; `markup` gives the `input` elements, in document
order, that the browser builds from markup that is not of the embedded
shape. -/
structure Platform where
  regExp : Str → Run (Str → Bool)
  markup : Str → List InputEl

/-- The platform that adds nothing to the embedded fragments, for evaluating
the functions on inputs inside them, where the platform is not consulted. -/
def fragmentOnly : Platform :=
  { regExp := fun _ => .error .unmodelled, markup := fun _ => [] }

/-- The `input` elements inserted by `inputElement.after(html)`. -/
def insertedInputs (P : Platform) (html : Str) : List InputEl :=
  match parseInputs html with
  | .ok created => created
  | .error _ => P.markup html

/-- The markup built in `setInputValue`:
`'<input type="hidden" name="' + elementName + '" value="' + value + '"/>'`. -/
def hiddenInputMarkup (elementName : Str) (value : JSVal) : Str :=
  "<input type=\"hidden\" name=\"".toList ++ elementName ++ "\" value=\"".toList
    ++ value.toStr ++ "\"/>".toList

/-! ## `setInputValue` and `getInputValue` -/

/-- The function `setInputValue(inputElement, name, value)`: when an input
with the companion name exists below the parent, the value of the first one
is set; otherwise the markup of a hidden input is inserted right after the
field. -/
def setInputValue (P : Platform) (sc : Scope) (name : Str) (value : JSVal) : Run Scope :=
  let elementName := elementName (attr sc.field.name) name
  match find sc elementName with
  | .error e => .error e
  | .ok searchElement =>
    if searchElement.length > 0 then
      .ok (setFirstInScope sc elementName (valArg value))
    else
      .ok { sc with after := insertedInputs P (hiddenInputMarkup elementName value) ++ sc.after }

/-- The function `getInputValue(inputElement, name)`: the value, read with
`.val()`, of the first input with the companion name below the parent, the
empty string when there is none. -/
def getInputValue (sc : Scope) (name : Str) : Run Str :=
  let elementName := elementName (attr sc.field.name) name
  match find sc elementName with
  | .error e => .error e
  | .ok searchElement =>
    match searchElement with
    | el :: _ => .ok (valGet el)
    | [] => .ok []

/-! ## State of the chooser -/

/-- The `clipboard` property: the five properties read from it.  Before the
first `copy` it is an empty array, on which each of them reads `undefined`. -/
structure Clipboard where
  sourceValue : JSVal
  concept_id : JSVal
  ontology_id : JSVal
  ncbo_id : JSVal
  full_id : JSVal
  deriving DecidableEq

/-- The initial clipboard `[]`. -/
def Clipboard.initial : Clipboard :=
  { sourceValue := .undefined, concept_id := .undefined, ontology_id := .undefined,
    ncbo_id := .undefined, full_id := .undefined }

/-- The mutable properties of the chooser object that the embedded functions
use: the own string-keyed properties assigned to the `cache` array (latest
first), the `noSearch` flag, the clipboard, and the `showHide` option (`none`
when not configured, else whether the element is shown).  The array is a
property of the prototype, so every field (and every chooser) reads and
writes the same one.  The `ctrl` flag of the key handlers and the options
`minLength` and `spinner` play no part in these functions. -/
structure State where
  cache : List (Str × List TermRecord)
  noSearch : Bool
  clipboard : Clipboard
  showHide : Option Bool
  deriving DecidableEq

/-! ## `copy` and `paste` -/

/-- The function `copy(inputElement)`: stores the text of the field, read with
`.val()`, and its four companion values in the clipboard and returns
`false`. -/
def copy (st : State) (sc : Scope) : Run (State × Bool) :=
  match getInputValue sc "concept_id".toList with
  | .error e => .error e
  | .ok concept_id =>
  match getInputValue sc "ontology_id".toList with
  | .error e => .error e
  | .ok ontology_id =>
  match getInputValue sc "ncbo_id".toList with
  | .error e => .error e
  | .ok ncbo_id =>
  match getInputValue sc "full_id".toList with
  | .error e => .error e
  | .ok full_id =>
    .ok ({ st with clipboard :=
        { sourceValue := .str (valGet sc.field)
          concept_id := .str concept_id
          ontology_id := .str ontology_id
          ncbo_id := .str ncbo_id
          full_id := .str full_id } }, false)

/-- The characters with a meaning in a regular expression:
backslash, caret, dollar, dot, bar, question mark, star, plus, parentheses,
square brackets and braces. -/
def regexSyntaxChar (c : Char) : Bool :=
  c.toNat ∈ [92, 94, 36, 46, 124, 63, 42, 43, 40, 41, 91, 93, 123, 125]

/-- The constructor call `new RegExp(source)`, with the compiled pattern
given as the test that `s.match(pattern)` is truthy.  A source without syntax
characters compiles to the pattern that matches exactly that text, so the
test is whether the text occurs in `s`.  A source that begins with a
quantifier (star, plus or question mark) has nothing to repeat and is
rejected with a `SyntaxError`.  For other sources the result is that of the
`Platform` parameter. -/
def newRegExp (P : Platform) (source : Str) : Run (Str → Bool) :=
  if source.all (fun c => !regexSyntaxChar c) then .ok (fun s => occursIn source s)
  else match source with
    | c :: _ => if c.toNat ∈ [42, 43, 63] then .error .syntaxError else P.regExp source
    | [] => P.regExp source

/-- The body of the inner `if` of `paste`: the flag `noSearch` is set, the text
of the field is replaced and the four companions are written. -/
def pasteValues (P : Platform) (st : State) (sc : Scope) : Run (State × Scope) :=
  let st1 := { st with noSearch := true }
  let sc0 := { sc with field := setValue sc.field (valArg st.clipboard.sourceValue) }
  match setInputValue P sc0 "concept_id".toList st.clipboard.concept_id with
  | .error e => .error e
  | .ok sc1 =>
  match setInputValue P sc1 "ontology_id".toList st.clipboard.ontology_id with
  | .error e => .error e
  | .ok sc2 =>
  match setInputValue P sc2 "ncbo_id".toList st.clipboard.ncbo_id with
  | .error e => .error e
  | .ok sc3 =>
  match setInputValue P sc3 "full_id".toList st.clipboard.full_id with
  | .error e => .error e
  | .ok sc4 => .ok (st1, sc4)

/-- The function `paste(inputElement)`.  When the four clipboard properties
tested are truthy, a pattern is compiled from `ncbo_id` and the `rel`
attribute of the field is matched against it and against `/all/`; on a match
the values are pasted.  The function returns `false`. -/
def paste (P : Platform) (st : State) (sc : Scope) : Run (State × Scope × Bool) :=
  if st.clipboard.sourceValue.truthy && st.clipboard.concept_id.truthy
      && st.clipboard.ncbo_id.truthy && st.clipboard.full_id.truthy then
    match newRegExp P st.clipboard.ncbo_id.toStr with
    | .error e => .error e
    | .ok pattern =>
      match sc.field.rel with
      | none => .error .typeError
      | some rel =>
        if pattern rel || occursIn "all".toList rel then
          match pasteValues P st sc with
          | .error e => .error e
          | .ok (st1, sc1) => .ok (st1, sc1, false)
        else .ok (st, sc, false)
  else .ok (st, sc, false)

/-! ## The suggestion cache and the autocomplete callbacks -/

/-- The ontology a field searches in, computed in `initAutocomplete`: the
second part of the `rel` attribute split at `-`, with `all` replaced by
the empty string. -/
def fieldOntologyId (rel : Str) : JSVal :=
  let values := split rel "-".toList
  let ontology_id := index values 1
  if ontology_id = .str "all".toList then .str [] else ontology_id

/-- Names of properties that every array has without their being assigned:
the members of `Array.prototype` and `Object.prototype`. -/
def arrayBuiltin (q : Str) : Bool :=
  q ∈ (["constructor", "toString", "toLocaleString", "join", "pop", "push",
    "concat", "reverse", "shift", "unshift", "slice", "splice", "sort", "filter",
    "forEach", "some", "every", "map", "indexOf", "lastIndexOf", "reduce",
    "reduceRight", "copyWithin", "entries", "fill", "find", "findIndex", "keys",
    "values", "includes", "flat", "flatMap", "at", "findLast", "findLastIndex",
    "toReversed", "toSorted", "toSpliced", "with", "hasOwnProperty", "valueOf",
    "isPrototypeOf", "propertyIsEnumerable", "__proto__", "__defineGetter__",
    "__defineSetter__", "__lookupGetter__", "__lookupSetter__"].map String.toList)

/-- The value read by `that.cache[q]`. -/
inductive CacheVal where
  | undefined
  | records (rs : List TermRecord)
  | builtin
  deriving DecidableEq

/-- Truthiness of a value read from the cache: a stored array (even an empty
one) and an inherited member are truthy. -/
def CacheVal.truthy : CacheVal → Bool
  | .undefined => false
  | _ => true

/-- The read `that.cache[q]`: the array assigned under `q` if any, else an
inherited member when `q` names one, else `undefined`.  The key `length`,
whose value depends on the numeric keys assigned, is `unmodelled`. -/
def cacheRead (cache : List (Str × List TermRecord)) (q : Str) : Run CacheVal :=
  if q = "length".toList then .error .unmodelled
  else match cache.lookup q with
    | some rs => .ok (.records rs)
    | none => if arrayBuiltin q then .ok .builtin else .ok .undefined

/-- The assignment `that.cache[q] = result`.  The keys `length` and
`__proto__`, on which assignment does not store a property, are
`unmodelled`. -/
def cacheWrite (cache : List (Str × List TermRecord)) (q : Str)
    (result : List TermRecord) : Run (List (Str × List TermRecord)) :=
  if q = "length".toList ∨ q = "__proto__".toList then .error .unmodelled
  else .ok ((q, result) :: cache)

/-- What the `source` callback does with a request: it answers from the cache,
or starts a fetch of `url` whose answer will be stored under `q`. -/
inductive SourceStep where
  | respond (v : CacheVal)
  | fetch (url q : Str)
  deriving DecidableEq

/-- The `source` callback of a field whose ontology is `ontology_id`, up to
the start of the fetch. -/
def source (st : State) (ontology_id : JSVal) (term : Str) : Run SourceStep :=
  let q := trim term
  let url := "http://bioportal.bioontology.org/search/json_search/".toList
    ++ ontology_id.toStr ++ "?q=".toList ++ term ++ "&response=json&callback=?".toList
  match cacheRead st.cache q with
  | .error e => .error e
  | .ok v => if v.truthy then .ok (.respond v) else .ok (.fetch url q)

/-- The four writes that clear the companions with `value`. -/
def clearCompanions (P : Platform) (sc : Scope) (value : JSVal) : Run Scope :=
  match setInputValue P sc "concept_id".toList value with
  | .error e => .error e
  | .ok sc1 =>
  match setInputValue P sc1 "ontology_id".toList value with
  | .error e => .error e
  | .ok sc2 =>
  match setInputValue P sc2 "ncbo_id".toList value with
  | .error e => .error e
  | .ok sc3 => setInputValue P sc3 "full_id".toList value

/-- The callback passed to `$.getJSON` in `source`, for the answer `data.data`
of the service: the answer is parsed and stored under `q`; when the answer is
falsy the `showHide` element is hidden and the companions are written with
`null`.  The parsed records are passed to `response`.  On an answer that is
not a string, `data.split` throws. -/
def fetched (P : Platform) (st : State) (sc : Scope) (ontology_id : JSVal) (q : Str)
    (data : JSVal) : Run (State × Scope × List TermRecord) :=
  match data with
  | .str d =>
    let result := parseData d ontology_id
    match cacheWrite st.cache q result with
    | .error e => .error e
    | .ok cache =>
      let st1 := { st with cache := cache }
      if !data.truthy then
        let st2 := { st1 with showHide := st1.showHide.map (fun _ => false) }
        match clearCompanions P sc .null with
        | .error e => .error e
        | .ok sc1 => .ok (st2, sc1, result)
      else .ok (st1, sc, result)
  | _ => .error .typeError

/-- The `close` callback, with the flag `selected` of the field: when nothing
was picked the text of the field is emptied and the companions are written
with the empty string. -/
def close (P : Platform) (sc : Scope) (selected : Bool) : Run Scope :=
  if !selected then
    clearCompanions P { sc with field := setValue sc.field [] } (.str [])
  else .ok sc

/-! ## Auxiliary notions used in the statements -/

/-- Tells whether the companions of the field can be looked up: the name of
the field consists of `selectorPlain` characters. -/
def selectable (sc : Scope) : Bool :=
  (attr sc.field.name).toStr.all selectorPlain

/-- Tells whether the text `v`, written to the companion `name` of the field,
is read back unchanged.  When an input with the companion name exists, the
first one is assigned: `v` must have no carriage return (the getter removes
it) and, for a text input, no line feed.  When there is none, a hidden input
is built from markup: the companion name and `v` must consist of characters
that an attribute value is read through unchanged. -/
def keepsValue (sc : Scope) (name : Str) (v : Str) : Bool :=
  match inputsNamed sc (elementName (attr sc.field.name) name) with
  | el :: _ => v.all (fun c => !(c.toNat == 13)) && (el.hidden || v.all (fun c => !lineBreak c))
  | [] => (elementName (attr sc.field.name) name).all attrPlain && v.all attrPlain

/-- The acceptance rule of `paste` in the words of the specification: the
four clipboard values are non-empty, and the ontology filter of the target
(the second part of its `rel` attribute split at `-`) is `all` or is a
substring of the clipboard's `ncbo_id` or has it as a substring. -/
def claimedPasteAccepts (clip : Clipboard) (rel : Str) : Bool :=
  clip.sourceValue.truthy && clip.concept_id.truthy && clip.ncbo_id.truthy
    && clip.full_id.truthy
    && (index (split rel "-".toList) 1 == .str "all".toList
        || occursIn (index (split rel "-".toList) 1).toStr clip.ncbo_id.toStr
        || occursIn clip.ncbo_id.toStr (index (split rel "-".toList) 1).toStr)

/-! ## Lemmas on `split`, `trim` and `parseRows` -/

theorem splitGo_skip (sep : Str) (s cur : Str) :
    splitGo sep s.length s cur = [cur] := by
  induction s with
  | nil => simp [splitGo]
  | cons c cs ih => simp [splitGo, ih]

theorem isPrefixOf_self (p : Str) : p.isPrefixOf p = true := by
  induction p with
  | nil => rfl
  | cons c cs ih => simp [List.isPrefixOf, ih]

theorem splitGo_of_no_match (sep : Str) (hsep : sep ≠ []) (r : Str) :
    ∀ cur : Str,
      (∀ a t : Str, r = a ++ t → t ≠ [] → sep.isPrefixOf (t ++ sep) = false) →
      splitGo sep 0 (r ++ sep) cur = [cur ++ r, []] := by
  induction r with
  | nil =>
    intro cur _
    cases sep with
    | nil => exact absurd rfl hsep
    | cons c cs =>
      have h := isPrefixOf_self (c :: cs)
      simp only [List.nil_append, splitGo, h, if_true, List.length_cons,
        Nat.add_sub_cancel, List.append_nil]
      rw [splitGo_skip]
  | cons c cs ih =>
    intro cur h
    have h1 : sep.isPrefixOf ((c :: cs) ++ sep) = false :=
      h [] (c :: cs) rfl (by simp)
    have h2 : ∀ a t : Str, cs = a ++ t → t ≠ [] → sep.isPrefixOf (t ++ sep) = false := by
      intro a t e ht
      exact h (c :: a) t (by rw [e]; rfl) ht
    rw [List.cons_append] at h1 ⊢
    simp only [splitGo, h1]
    rw [ih (cur ++ [c]) h2]
    simp

theorem splitGo_of_no_occurrence (sep : Str) (s : Str) :
    ∀ cur : Str, occursIn sep s = false → splitGo sep 0 s cur = [cur ++ s] := by
  induction s with
  | nil => intro cur _; simp [splitGo]
  | cons c cs ih =>
    intro cur h
    simp only [occursIn, Bool.or_eq_false_iff] at h
    simp only [splitGo, h.1]
    rw [ih (cur ++ [c]) h.2]
    simp

theorem occursIn_of_isPrefixOf (p : Str) (a t : Str) (h : p.isPrefixOf t = true) :
    occursIn p (a ++ t) = true := by
  induction a with
  | nil =>
    cases t with
    | nil =>
      cases p with
      | nil => rfl
      | cons c cs => simp [List.isPrefixOf] at h
    | cons c cs => simp [occursIn, h]
  | cons c cs ih => simp [occursIn, ih]

theorem recordSep_no_match (r : Str) (hsep : occursIn recordSep r = false)
    (hend : "~!".toList.isSuffixOf r = false) :
    ∀ a t : Str, r = a ++ t → t ≠ [] → recordSep.isPrefixOf (t ++ recordSep) = false := by
  intro a t e ht
  match t, ht with
  | [x], _ =>
    simp [recordSep, List.isPrefixOf]
  | [x, y], _ =>
    by_contra hc
    simp [recordSep, List.isPrefixOf] at hc
    obtain ⟨hx, hy⟩ := hc
    subst hx hy e
    simp [List.isSuffixOf, List.isPrefixOf] at hend  
  | x :: y :: z :: t, _ =>
    by_contra hc
    have hp : recordSep.isPrefixOf (x :: y :: z :: t) = true := by
      simp [recordSep, List.isPrefixOf] at hc ⊢
      exact hc
    have := occursIn_of_isPrefixOf recordSep a (x :: y :: z :: t) hp
    rw [← e, hsep] at this
    exact Bool.noConfusion this

theorem trim_eq_self (r : Str)
    (hfirst : ∀ c ∈ r.head?, isWhitespace c = false)
    (hlast : ∀ c ∈ r.getLast?, isWhitespace c = false) : trim r = r := by
  unfold trim
  have h1 : r.dropWhile isWhitespace = r := by
    cases r with
    | nil => rfl
    | cons c cs =>
      have := hfirst c (by simp)
      simp [List.dropWhile, this]
  rw [h1]
  have h2 : r.reverse.dropWhile isWhitespace = r.reverse := by
    cases hr : r.reverse with
    | nil => rfl
    | cons c cs =>
      have hl : r.getLast? = some c := by
        rw [← List.head?_reverse, hr]; rfl
      have := hlast c (by simp [hl])
      simp [List.dropWhile, this]
  rw [h2, List.reverse_reverse]

theorem parseRows_eq (f : JSVal) (rows : List Str) :
    ∀ parsed : List TermRecord,
      parseRows f rows parsed = parsed ++
        (((rows.map trim).filter (fun row => !row.isEmpty)).map
          (fun row => rowRecord (split row columnSep) f)) := by
  induction rows with
  | nil => intro parsed; simp [parseRows]
  | cons r rows ih =>
    intro parsed
    by_cases h : (trim r).isEmpty = true
    · simp [parseRows, h, ih]
    · simp [parseRows, h, ih]

theorem columnSep_eq : columnSep = ['|'] := rfl

/-- A text without the bar is one column. -/
theorem splitGo_column (c : Str) (h : '|' ∉ c) :
    ∀ cur : Str, splitGo columnSep 0 c cur = [cur ++ c] := by
  intro cur
  apply splitGo_of_no_occurrence
  rw [columnSep_eq]
  induction c with
  | nil => rfl
  | cons x xs ih =>
    simp only [List.mem_cons, not_or] at h
    have hx : ('|' == x) = false := by simpa using h.1
    simp only [occursIn, List.isPrefixOf, hx, Bool.false_and, Bool.false_or]
    exact ih h.2

/-- The scan over a column that is followed by a bar. -/
theorem splitGo_column_bar (c : Str) (h : '|' ∉ c) (rest : Str) :
    ∀ cur : Str, splitGo columnSep 0 (c ++ '|' :: rest) cur
      = (cur ++ c) :: splitGo columnSep 0 rest [] := by
  rw [columnSep_eq]
  induction c with
  | nil => intro cur; simp [splitGo, List.isPrefixOf]
  | cons x xs ih =>
    intro cur
    simp only [List.mem_cons, not_or] at h
    have hx : ('|' == x) = false := by simpa using h.1
    simp only [List.cons_append, splitGo, List.isPrefixOf, hx, Bool.false_and]
    have := ih h.2 (cur ++ [x])
    simp only [List.append_assoc, List.singleton_append] at this
    simpa using this

/-- The model of `split` inverts joining: a text made of a column `c0` and
further columns, each preceded by a bar, where no column contains a bar,
splits at the bar into exactly these columns. -/
theorem split_columns (rest : List Str) :
    ∀ c0 : Str, '|' ∉ c0 → (∀ c ∈ rest, '|' ∉ c) →
      split (c0 ++ (rest.map (fun c => '|' :: c)).flatten) columnSep = c0 :: rest := by
  induction rest with
  | nil =>
    intro c0 h0 _
    simpa [split] using splitGo_column c0 h0 []
  | cons c cs ih =>
    intro c0 h0 h
    have hc : '|' ∉ c := h c (by simp)
    have hcs : ∀ x ∈ cs, '|' ∉ x := fun x hx => h x (by simp [hx])
    have := ih c hc hcs
    simp only [split] at this ⊢
    simp only [List.map_cons, List.flatten_cons, List.cons_append]
    rw [splitGo_column_bar c0 h0, this]
    simp

/-! ## Lemmas on the inserted markup -/

theorem attrPlain_ne_dquote (c : Char) (h : attrPlain c = true) : c ≠ dquote := by
  intro e
  subst e
  simp [attrPlain] at h

theorem htmlFold_append (xs ys : Str) :
    ∀ (m : Mode) (attrs : List (Str × Str)) (done : List InputEl),
      htmlFold m attrs done (xs ++ ys) =
        match htmlFold m attrs done xs with
        | .ok (m1, attrs1, done1) => htmlFold m1 attrs1 done1 ys
        | .error e => .error e := by
  induction xs with
  | nil => intro m attrs done; rfl
  | cons c cs ih =>
    intro m attrs done
    simp only [List.cons_append, htmlFold]
    cases h : htmlStep m attrs done c with
    | error e => rfl
    | ok r =>
      obtain ⟨m1, attrs1, done1⟩ := r
      exact ih m1 attrs1 done1

theorem htmlFold_attrValue (n : Str) (attrs : List (Str × Str)) (done : List InputEl)
    (w : Str) :
    ∀ v0 : Str, w.all attrPlain = true →
      htmlFold (.attrValue n v0) attrs done (w ++ [dquote])
        = .ok (.afterValue, addAttr attrs n (v0 ++ w), done) := by
  induction w with
  | nil => intro v0 _; simp [htmlFold, htmlStep]
  | cons c cs ih =>
    intro v0 h
    simp only [List.all_cons, Bool.and_eq_true] at h
    have hc := attrPlain_ne_dquote c h.1
    simp only [List.cons_append, htmlFold, htmlStep, if_neg hc, h.1, if_true]
    have := ih (v0 ++ [c]) h.2
    simp only [List.append_assoc, List.singleton_append] at this
    exact this

theorem htmlFold_open_tag :
    htmlFold .data [] [] "<input type=\"hidden\" name=\"".toList
      = .ok (.attrValue "name".toList [], [("type".toList, "hidden".toList)], []) := by
  decide

theorem htmlFold_value_attr (attrs : List (Str × Str)) (done : List InputEl) :
    htmlFold .afterValue attrs done " value=\"".toList
      = .ok (.attrValue "value".toList [], attrs, done) := by
  rfl

theorem htmlFold_close_tag (attrs : List (Str × Str)) (done : List InputEl) :
    htmlFold .afterValue attrs done "/>".toList
      = match mkInput attrs with
        | .ok el => .ok (.data, [], done ++ [el])
        | .error e => .error e := by
  rw [show "/>".toList = ['/', '>'] from rfl]
  cases h : mkInput attrs <;> simp [htmlFold, htmlStep, h]

theorem hiddenInputMarkup_eq (en : Str) (v : JSVal) :
    hiddenInputMarkup en v = "<input type=\"hidden\" name=\"".toList ++
      ((en ++ [dquote]) ++ (" value=\"".toList ++ ((v.toStr ++ [dquote]) ++ "/>".toList))) := by
  have e2 : "\" value=\"".toList = dquote :: " value=\"".toList := by decide
  have e3 : "\"/>".toList = dquote :: "/>".toList := by decide
  unfold hiddenInputMarkup
  rw [e2, e3]
  simp only [List.append_assoc, List.cons_append, List.nil_append, List.singleton_append]

theorem parseInputs_hiddenInputMarkup (en : Str) (v : JSVal) (hen : en.all attrPlain = true)
    (hv : v.toStr.all attrPlain = true) :
    parseInputs (hiddenInputMarkup en v)
      = .ok [{ name := some en, rel := none, hidden := true, value := v.toStr }] := by
  unfold parseInputs
  rw [hiddenInputMarkup_eq, htmlFold_append, htmlFold_open_tag]
  simp only
  rw [htmlFold_append, htmlFold_attrValue _ _ _ _ _ hen]
  simp only
  rw [htmlFold_append, htmlFold_value_attr]
  simp only
  rw [htmlFold_append, htmlFold_attrValue _ _ _ _ _ hv]
  simp only
  rw [htmlFold_close_tag]
  have h1 : ("type".toList == "name".toList) = false := by decide
  have h2 : ("type".toList == "value".toList) = false := by decide
  have h3 : ("name".toList == "value".toList) = false := by decide
  have h4 : ("name".toList == "type".toList) = false := by decide
  have h5 : ("rel".toList == "type".toList) = false := by decide
  have h6 : ("rel".toList == "name".toList) = false := by decide
  have h7 : ("rel".toList == "value".toList) = false := by decide
  have h8 : ("value".toList == "type".toList) = false := by decide
  have h9 : ("value".toList == "name".toList) = false := by decide
  simp [mkInput, addAttr, List.lookup, h1, h2, h3, h4, h5, h6, h7, h8, h9]

/-! ## Lemmas on the inputs of a scope -/

theorem hasName_companion_field (sc : Scope) (c : Str) :
    hasName (elementName (attr sc.field.name) c) sc.field = false := by
  cases hn : sc.field.name with
  | none => simp [hasName, hn]
  | some n =>
    simp only [hasName, hn, attr, elementName, JSVal.toStr, decide_eq_false_iff_not,
      Option.some.injEq]
    intro e
    have := congrArg List.length e
    simp at this

theorem elementName_ne (p : JSVal) (c d : Str) (h : c ≠ d) :
    elementName p c ≠ elementName p d := by
  intro e
  simp [elementName] at e
  exact h e

theorem hasName_setValue (n : Str) (el : InputEl) (v : Str) :
    hasName n (setValue el v) = hasName n el := rfl

theorem setFirst_eq_none (n v : Str) (l : List InputEl)
    (h : l.filter (hasName n) = []) : setFirst n v l = none := by
  induction l with
  | nil => rfl
  | cons el els ih =>
    by_cases he : hasName n el = true
    · simp [List.filter, he] at h
    · simp only [Bool.not_eq_true] at he
      simp only [List.filter, he] at h
      simp [setFirst, he, ih h]

theorem hasName_of_ne (m n : Str) (el : InputEl) (hmn : m ≠ n)
    (h : hasName n el = true) : hasName m el = false := by
  simp only [hasName, decide_eq_true_eq] at h
  simp only [hasName, h, decide_eq_false_iff_not, Option.some.injEq]
  exact fun e => hmn e.symm

theorem setFirst_eq_some (n v : Str) (l : List InputEl) (e : InputEl) (es : List InputEl)
    (h : l.filter (hasName n) = e :: es) :
    ∃ l1, setFirst n v l = some l1
      ∧ l1.filter (hasName n) = setValue e v :: es
      ∧ ∀ m, m ≠ n → l1.filter (hasName m) = l.filter (hasName m) := by
  induction l with
  | nil => simp at h
  | cons el els ih =>
    by_cases he : hasName n el = true
    · simp only [List.filter, he, List.cons.injEq] at h
      obtain ⟨h1, h2⟩ := h
      subst h1
      refine ⟨setValue el v :: els, by simp [setFirst, he], ?_, ?_⟩
      · simp [List.filter, hasName_setValue, he, h2]
      · intro m hm
        have := hasName_of_ne m n el hm he
        simp [List.filter, hasName_setValue, this]
    · simp only [Bool.not_eq_true] at he
      simp only [List.filter, he] at h
      obtain ⟨l1, h1, h2, h3⟩ := ih h
      refine ⟨el :: l1, by simp [setFirst, he, h1], ?_, ?_⟩
      · simp [List.filter, he, h2]
      · intro m hm
        simp only [List.filter, h3 m hm]

theorem inputsNamed_eq (sc : Scope) (n : Str) :
    inputsNamed sc n = sc.before.filter (hasName n)
      ++ ((if hasName n sc.field then [sc.field] else []) ++ sc.after.filter (hasName n)) := by
  simp only [inputsNamed, Scope.inputs, List.filter_append, List.filter_cons]
  split <;> simp

/-- Effect of setting the first match on the inputs of every name, when the
field itself does not match. -/
theorem setFirstInScope_spec (sc : Scope) (n v : Str) (hf : hasName n sc.field = false)
    (e : InputEl) (es : List InputEl) (h : inputsNamed sc n = e :: es) :
    (setFirstInScope sc n v).field = sc.field
      ∧ inputsNamed (setFirstInScope sc n v) n = setValue e v :: es
      ∧ ∀ m, m ≠ n → inputsNamed (setFirstInScope sc n v) m = inputsNamed sc m := by
  rw [inputsNamed_eq, hf] at h
  simp only [Bool.false_eq_true, if_false, List.nil_append] at h
  cases hb : sc.before.filter (hasName n) with
  | nil =>
    rw [hb, List.nil_append] at h
    obtain ⟨a1, h1, h2, h3⟩ := setFirst_eq_some n v sc.after e es h
    have hs : setFirstInScope sc n v = { sc with after := a1 } := by
      simp [setFirstInScope, setFirst_eq_none n v sc.before hb, hf, h1]
    rw [hs]
    refine ⟨rfl, ?_, ?_⟩
    · rw [inputsNamed_eq]; simp [hf, hb, h2]
    · intro m hm
      rw [inputsNamed_eq, inputsNamed_eq]; simp [h3 m hm]
  | cons b bs =>
    rw [hb, List.cons_append, List.cons.injEq] at h
    obtain ⟨hbe, hbs⟩ := h
    subst hbe
    obtain ⟨b1, h1, h2, h3⟩ := setFirst_eq_some n v sc.before b bs hb
    have hs : setFirstInScope sc n v = { sc with before := b1 } := by
      simp [setFirstInScope, h1]
    rw [hs]
    refine ⟨rfl, ?_, ?_⟩
    · rw [inputsNamed_eq]; simp [hf, h2, hbs]
    · intro m hm
      rw [inputsNamed_eq, inputsNamed_eq]; simp [h3 m hm]

theorem insertedInputs_of_plain (P : Platform) (en : Str) (v : JSVal)
    (hen : en.all attrPlain = true) (hv : v.toStr.all attrPlain = true) :
    insertedInputs P (hiddenInputMarkup en v)
      = [{ name := some en, rel := none, hidden := true, value := v.toStr }] := by
  simp only [insertedInputs, parseInputs_hiddenInputMarkup en v hen hv]

/-! ## Lemmas on `setInputValue` and `getInputValue` -/

theorem attrPlain_ge (c : Char) (h : attrPlain c = true) :
    32 ≤ c.toNat := by
  simp only [attrPlain, Bool.and_eq_true, decide_eq_true_eq] at h
  exact h.1.1.1.1

/-- The companion names of a field whose name is selector-plain are
selector-plain, for a companion name that is. -/
theorem elementName_selectorPlain (sc : Scope) (c : Str) (hs : selectable sc = true)
    (hc : c.all selectorPlain = true) :
    (elementName (attr sc.field.name) c).all selectorPlain = true := by
  simp only [selectable] at hs
  have hd : selectorPlain '-' = true := by decide
  simp [elementName, List.all_append, hs, hc, hd]

theorem find_of_selectorPlain (sc : Scope) (n : Str) (h : n.all selectorPlain = true) :
    find sc n = .ok (inputsNamed sc n) := by
  simp only [find, h, if_true]

/-- A write to a companion whose name can be looked up returns, and leaves the
field as it was. -/
theorem setInputValue_total (P : Platform) (sc : Scope) (c : Str) (v : JSVal)
    (hn : (elementName (attr sc.field.name) c).all selectorPlain = true) :
    ∃ sc1 : Scope, setInputValue P sc c v = .ok sc1 ∧ sc1.field = sc.field := by
  have hf := hasName_companion_field sc c
  cases hfind : inputsNamed sc (elementName (attr sc.field.name) c) with
  | cons e es =>
    obtain ⟨h1, _, _⟩ := setFirstInScope_spec sc _ (valArg v) hf e es hfind
    exact ⟨_, by simp [setInputValue, find_of_selectorPlain sc _ hn, hfind], h1⟩
  | nil =>
    have hset : setInputValue P sc c v = .ok (Scope.mk sc.before sc.field
        (insertedInputs P (hiddenInputMarkup (elementName (attr sc.field.name) c) v)
          ++ sc.after)) := by
      simp [setInputValue, find_of_selectorPlain sc _ hn, hfind]
    exact ⟨_, hset, rfl⟩

theorem filter_eq_self_of_all (p : Char → Bool) (v : Str) (h : v.all p = true) :
    v.filter p = v := by
  induction v with
  | nil => rfl
  | cons c cs ih =>
    simp only [List.all_cons, Bool.and_eq_true] at h
    simp [List.filter, h.1, ih h.2]

/-- A text without carriage return, and without line feed when the element is
a text input, is read from the element as it was assigned. -/
theorem valGet_setValue (e : InputEl) (v : Str)
    (hcr : v.all (fun c => !(c.toNat == 13)) = true)
    (hlf : (e.hidden || v.all (fun c => !lineBreak c)) = true) :
    valGet (setValue e v) = v := by
  cases hh : e.hidden with
  | true => simp only [valGet, setValue, hh, if_true, filter_eq_self_of_all _ v hcr]
  | false =>
    simp only [hh, Bool.false_or] at hlf
    simp only [valGet, setValue, hh, Bool.false_eq_true, if_false,
      filter_eq_self_of_all _ v hlf, filter_eq_self_of_all _ v hcr]

theorem no_carriage_return_of_attrPlain (v : Str) (h : v.all attrPlain = true) :
    v.all (fun c => !(c.toNat == 13)) = true := by
  simp only [List.all_eq_true] at h ⊢
  intro c hc
  have := attrPlain_ge c (h c hc)
  simp only [Bool.not_eq_true', beq_eq_false_iff_ne, ne_eq]
  omega

/-- Reading a companion when the inputs of its name are known. -/
theorem getInputValue_of_inputsNamed (sc : Scope) (c : Str) (e : InputEl) (es : List InputEl)
    (hn : (elementName (attr sc.field.name) c).all selectorPlain = true)
    (h : inputsNamed sc (elementName (attr sc.field.name) c) = e :: es) :
    getInputValue sc c = .ok (valGet e) := by
  simp only [getInputValue, find_of_selectorPlain sc _ hn, h]

/-- A write of a text that `keepsValue` allows leaves the field and the inputs
of every other name as they were, and afterwards the companion reads as the
text written and its name has as many inputs as before, or one when it had
none. -/
theorem setInputValue_str (P : Platform) (sc : Scope) (c v : Str)
    (hn : (elementName (attr sc.field.name) c).all selectorPlain = true)
    (h : keepsValue sc c v = true) :
    ∃ sc1 : Scope, setInputValue P sc c (.str v) = .ok sc1
      ∧ sc1.field = sc.field
      ∧ getInputValue sc1 c = .ok v
      ∧ (inputsNamed sc1 (elementName (attr sc.field.name) c)).length
          = max 1 (inputsNamed sc (elementName (attr sc.field.name) c)).length
      ∧ ∀ m, m ≠ elementName (attr sc.field.name) c → inputsNamed sc1 m = inputsNamed sc m := by
  have hf := hasName_companion_field sc c
  have hfd := find_of_selectorPlain sc _ hn
  cases hfind : inputsNamed sc (elementName (attr sc.field.name) c) with
  | cons e es =>
    simp only [keepsValue, hfind, Bool.and_eq_true] at h
    obtain ⟨h1, h2, h3⟩ := setFirstInScope_spec sc _ v hf e es hfind
    refine ⟨setFirstInScope sc (elementName (attr sc.field.name) c) v, ?_, h1, ?_, ?_, h3⟩
    · simp [setInputValue, hfd, hfind, valArg]
    · have hn1 : (elementName (attr (setFirstInScope sc (elementName (attr sc.field.name) c)
          v).field.name) c).all selectorPlain = true := by rw [h1]; exact hn
      have h21 : inputsNamed (setFirstInScope sc (elementName (attr sc.field.name) c) v)
          (elementName (attr (setFirstInScope sc (elementName (attr sc.field.name) c)
            v).field.name) c) = setValue e v :: es := by rw [h1]; exact h2
      rw [getInputValue_of_inputsNamed _ c _ es hn1 h21, valGet_setValue e v h.1 h.2]
    · rw [h2]; simp
  | nil =>
    simp only [keepsValue, hfind, Bool.and_eq_true] at h
    have hp := insertedInputs_of_plain P (elementName (attr sc.field.name) c) (.str v) h.1 h.2
    have hcr := no_carriage_return_of_attrPlain v h.2
    generalize hen : elementName (attr sc.field.name) c = en at *
    have hnew : hasName en ⟨some en, none, true, v⟩ = true := by
      simp [hasName]
    have hfind2 := hfind
    rw [inputsNamed_eq, hf] at hfind2
    simp only [Bool.false_eq_true, if_false, List.nil_append, List.append_eq_nil] at hfind2
    have hset : setInputValue P sc c (.str v)
        = .ok { sc with after := [⟨some en, none, true, v⟩] ++ sc.after } := by
      simp [setInputValue, hen, hfd, hfind, hp, JSVal.toStr]
    have hfound : inputsNamed { sc with after := [⟨some en, none, true, v⟩] ++ sc.after } en
        = [⟨some en, none, true, v⟩] := by
      rw [inputsNamed_eq]
      simp [hf, hfind2.1, hfind2.2, List.filter, hnew]
    have hfd2 : find { sc with after := [⟨some en, none, true, v⟩] ++ sc.after } en
        = .ok [⟨some en, none, true, v⟩] := by
      rw [find_of_selectorPlain _ _ hn, hfound]
    refine ⟨_, hset, rfl, ?_, ?_, ?_⟩
    · simp only [getInputValue, hen, hfd2, valGet, filter_eq_self_of_all _ v hcr]
    · rw [hfound]; simp
    · intro m hm
      have hne : hasName m ⟨some en, none, true, v⟩ = false := hasName_of_ne m _ _ hm hnew
      rw [inputsNamed_eq, inputsNamed_eq]
      simp [List.filter, hne]

/-- The reading of a companion and the question whether a text is kept depend
only on the name of the field and on the inputs of the companion name. -/
theorem getInputValue_congr (sc sc1 : Scope) (c : Str)
    (hname : sc1.field.name = sc.field.name)
    (h : inputsNamed sc1 (elementName (attr sc.field.name) c)
      = inputsNamed sc (elementName (attr sc.field.name) c)) :
    getInputValue sc1 c = getInputValue sc c ∧ ∀ v, keepsValue sc1 c v = keepsValue sc c v := by
  constructor
  · simp only [getInputValue, find, hname, h]
  · intro v; simp only [keepsValue, hname, h]

/-- Replacing the text of the field changes no input of a companion name. -/
theorem inputsNamed_setFieldValue (sc : Scope) (x : Str) (c : Str) :
    inputsNamed { sc with field := setValue sc.field x }
        (elementName (attr sc.field.name) c)
      = inputsNamed sc (elementName (attr sc.field.name) c) := by
  have hf := hasName_companion_field sc c
  have hf2 : hasName (elementName (attr sc.field.name) c) (setValue sc.field x) = false := hf
  rw [inputsNamed_eq, inputsNamed_eq]
  simp [hf, hf2]

/-- A write that `keepsValue` allows, with its effect on the other companions
of the field: they read as before and keep the same texts as before. -/
theorem setInputValue_frame (P : Platform) (sc : Scope) (c v : Str)
    (hn : (elementName (attr sc.field.name) c).all selectorPlain = true)
    (h : keepsValue sc c v = true) :
    ∃ sc1 : Scope, setInputValue P sc c (.str v) = .ok sc1
      ∧ sc1.field = sc.field
      ∧ getInputValue sc1 c = .ok v
      ∧ ∀ d, d ≠ c → getInputValue sc1 d = getInputValue sc d
          ∧ ∀ x, keepsValue sc1 d x = keepsValue sc d x := by
  obtain ⟨sc1, h1, h2, h3, _, h5⟩ := setInputValue_str P sc c v hn h
  refine ⟨sc1, h1, h2, h3, ?_⟩
  intro d hd
  exact getInputValue_congr sc sc1 d (by rw [h2])
    (h5 _ (elementName_ne _ d c hd))

/-- Replacing the text of the field changes neither the reading of a
companion nor whether a text is kept. -/
theorem setFieldValue_frame (sc : Scope) (x : Str) (c : Str) :
    getInputValue { sc with field := setValue sc.field x } c = getInputValue sc c
      ∧ ∀ v, keepsValue { sc with field := setValue sc.field x } c v
          = keepsValue sc c v :=
  getInputValue_congr sc _ c rfl (inputsNamed_setFieldValue sc x c)

/-- The writes of `paste` into a field whose companions can be looked up all
return: the flag is set and the field is assigned the copied text. -/
theorem pasteValues_total (P : Platform) (st : State) (sc : Scope)
    (hs : selectable sc = true) :
    ∃ sc1 : Scope, pasteValues P st sc = .ok ({ st with noSearch := true }, sc1)
      ∧ sc1.field = setValue sc.field (valArg st.clipboard.sourceValue) := by
  have hs0 : selectable { sc with field := setValue sc.field (valArg st.clipboard.sourceValue) }
      = true := hs
  obtain ⟨s1, e1, g1⟩ := setInputValue_total P _ "concept_id".toList st.clipboard.concept_id
    (elementName_selectorPlain _ _ hs0 (by decide))
  have hs1 : selectable s1 = true := by simp only [selectable, g1]; exact hs
  obtain ⟨s2, e2, g2⟩ := setInputValue_total P s1 "ontology_id".toList st.clipboard.ontology_id
    (elementName_selectorPlain _ _ hs1 (by decide))
  have hs2 : selectable s2 = true := by simp only [selectable, g2, g1]; exact hs
  obtain ⟨s3, e3, g3⟩ := setInputValue_total P s2 "ncbo_id".toList st.clipboard.ncbo_id
    (elementName_selectorPlain _ _ hs2 (by decide))
  have hs3 : selectable s3 = true := by simp only [selectable, g3, g2, g1]; exact hs
  obtain ⟨s4, e4, g4⟩ := setInputValue_total P s3 "full_id".toList st.clipboard.full_id
    (elementName_selectorPlain _ _ hs3 (by decide))
  refine ⟨s4, ?_, ?_⟩
  · simp only [pasteValues, e1, e2, e3, e4]
  · rw [g4, g3, g2, g1]

/-- The writes of `paste` for a clipboard of texts that are all kept: each
companion reads as the clipboard value. -/
theorem pasteValues_str (P : Platform) (st : State) (sc : Scope) (sv cid oid nid fid : Str)
    (hclip : st.clipboard = ⟨.str sv, .str cid, .str oid, .str nid, .str fid⟩)
    (hs : selectable sc = true)
    (h1 : keepsValue sc "concept_id".toList cid = true)
    (h2 : keepsValue sc "ontology_id".toList oid = true)
    (h3 : keepsValue sc "ncbo_id".toList nid = true)
    (h4 : keepsValue sc "full_id".toList fid = true) :
    ∃ sc1 : Scope, pasteValues P st sc = .ok ({ st with noSearch := true }, sc1)
      ∧ getInputValue sc1 "concept_id".toList = .ok cid
      ∧ getInputValue sc1 "ontology_id".toList = .ok oid
      ∧ getInputValue sc1 "ncbo_id".toList = .ok nid
      ∧ getInputValue sc1 "full_id".toList = .ok fid := by
  have f1 := (setFieldValue_frame sc sv "concept_id".toList).2 cid
  have f2 := (setFieldValue_frame sc sv "ontology_id".toList).2 oid
  have f3 := (setFieldValue_frame sc sv "ncbo_id".toList).2 nid
  have f4 := (setFieldValue_frame sc sv "full_id".toList).2 fid
  rw [← f1] at h1
  rw [← f2] at h2
  rw [← f3] at h3
  rw [← f4] at h4
  have hs0 : selectable { sc with field := setValue sc.field sv } = true := hs
  obtain ⟨s1, e1, g1, r1, k1⟩ := setInputValue_frame P _ _ cid
    (elementName_selectorPlain _ _ hs0 (by decide)) h1
  have hs1 : selectable s1 = true := by simp only [selectable, g1]; exact hs
  have h2a := h2
  rw [← (k1 "ontology_id".toList (by decide)).2 oid] at h2a
  obtain ⟨s2, e2, g2, r2, k2⟩ := setInputValue_frame P s1 _ oid
    (elementName_selectorPlain _ _ hs1 (by decide)) h2a
  have hs2 : selectable s2 = true := by simp only [selectable, g2, g1]; exact hs
  have h3a := h3
  rw [← (k1 "ncbo_id".toList (by decide)).2 nid,
    ← (k2 "ncbo_id".toList (by decide)).2 nid] at h3a
  obtain ⟨s3, e3, g3, r3, k3⟩ := setInputValue_frame P s2 _ nid
    (elementName_selectorPlain _ _ hs2 (by decide)) h3a
  have hs3 : selectable s3 = true := by simp only [selectable, g3, g2, g1]; exact hs
  have h4a := h4
  rw [← (k1 "full_id".toList (by decide)).2 fid,
    ← (k2 "full_id".toList (by decide)).2 fid,
    ← (k3 "full_id".toList (by decide)).2 fid] at h4a
  obtain ⟨s4, e4, g4, r4, k4⟩ := setInputValue_frame P s3 _ fid
    (elementName_selectorPlain _ _ hs3 (by decide)) h4a
  refine ⟨s4, ?_, ?_, ?_, ?_, r4⟩
  · simp only [pasteValues, hclip, valArg, e1, e2, e3, e4]
  · rw [(k4 "concept_id".toList (by decide)).1, (k3 "concept_id".toList (by decide)).1,
      (k2 "concept_id".toList (by decide)).1, r1]
  · rw [(k4 "ontology_id".toList (by decide)).1, (k3 "ontology_id".toList (by decide)).1, r2]
  · rw [(k4 "ncbo_id".toList (by decide)).1, r3]

/-! ## Lemmas on `paste` -/

theorem truthy_str (s : Str) : (JSVal.str s).truthy = true ↔ s ≠ [] := by
  cases s <;> simp [JSVal.truthy]

theorem newRegExp_literal (P : Platform) (source : Str)
    (h : source.all (fun c => !regexSyntaxChar c) = true) :
    newRegExp P source = .ok (fun s => occursIn source s) := by
  simp only [newRegExp, h, if_true]

/-- The outcome of `paste` for a clipboard of texts, by the outcome of the
guard. -/
theorem paste_eq (P : Platform) (st : State) (sc : Scope) (sv cid oid nid fid rel : Str)
    (hclip : st.clipboard = ⟨.str sv, .str cid, .str oid, .str nid, .str fid⟩)
    (hrel : sc.field.rel = some rel) :
    paste P st sc =
      if sv ≠ [] ∧ cid ≠ [] ∧ nid ≠ [] ∧ fid ≠ [] then
        match newRegExp P nid with
        | .error e => .error e
        | .ok pattern =>
          if pattern rel = true ∨ occursIn "all".toList rel = true then
            match pasteValues P st sc with
            | .error e => .error e
            | .ok (st1, sc1) => .ok (st1, sc1, false)
          else .ok (st, sc, false)
      else .ok (st, sc, false) := by
  by_cases hfull : sv ≠ [] ∧ cid ≠ [] ∧ nid ≠ [] ∧ fid ≠ []
  · have t1 := (truthy_str sv).mpr hfull.1
    have t2 := (truthy_str cid).mpr hfull.2.1
    have t3 := (truthy_str nid).mpr hfull.2.2.1
    have t4 := (truthy_str fid).mpr hfull.2.2.2
    simp only [paste, hclip, t1, t2, t3, t4, Bool.and_self, if_true, JSVal.toStr, hrel,
      if_pos hfull, Bool.or_eq_true]
  · have hf : ((JSVal.str sv).truthy && (JSVal.str cid).truthy
        && (JSVal.str nid).truthy && (JSVal.str fid).truthy) = false := by
      by_contra hc
      simp only [Bool.not_eq_false, Bool.and_eq_true, truthy_str] at hc
      exact hfull ⟨hc.1.1.1, hc.1.1.2, hc.1.2, hc.2⟩
    simp only [paste, hclip, hf, if_neg hfull, Bool.false_eq_true, if_false]

/-! ## `parseData` -/

/-- C2: `parseData` yields the records of the segments of `data` between `~!~`
that are non-blank after trimming, one each and in the order of the segments;
its length is the number of non-blank segments; the empty text gives no
record. -/
theorem parseData_records_of_nonblank_segments (data : Str) (f : JSVal) :
    parseData data f =
        (((split data recordSep).map trim).filter (fun row => !row.isEmpty)).map
          (fun row => rowRecord (split row columnSep) f)
      ∧ (parseData data f).length =
        ((split data recordSep).filter (fun seg => !(trim seg).isEmpty)).length
      ∧ parseData [] f = [] := by
  refine ⟨?_, ?_, ?_⟩
  · simp [parseData, parseRows_eq]
  · simp only [parseData, parseRows_eq, List.nil_append, List.length_map, List.filter_map,
      Function.comp_def]
  · rfl

/-- C1 as stated fails: the record text `a|b|c|d|e~!` is non-blank, has no
white space at either end, contains no `~!~` and has five columns, yet
`parseData` of it followed by `~!~` returns two records, the first with
`full_id` equal to `e`. -/
theorem parseData_record_ending_in_marker_start :
    "a|b|c|d|e~!".toList ≠ []
      ∧ trim "a|b|c|d|e~!".toList = "a|b|c|d|e~!".toList
      ∧ occursIn recordSep "a|b|c|d|e~!".toList = false
      ∧ split "a|b|c|d|e~!".toList columnSep
          = ["a".toList, "b".toList, "c".toList, "d".toList, "e~!".toList]
      ∧ (parseData ("a|b|c|d|e~!".toList ++ recordSep) (.str "1494".toList)).map
          TermRecord.full_id = [.str "e".toList, .undefined] := by
  decide

/-- C1, amended: for a record text `r` that is non-blank, has no white space at
either end, contains no `~!~`, does not end in `~!`, and splits at the bar into
columns `c0, c1, c2, c3, c4` and further ones `rest`, `parseData` of `r`
followed by `~!~` returns exactly one record, with `value` and
`preferred_name` equal to `c0`, `concept_id` to `c1`, `ontology_id` to `c3`,
`full_id` to `c4`, and `ncbo_id` equal to column 8 when there are nine columns
or more and to the fallback otherwise. -/
theorem parseData_single_record (r : Str) (f : JSVal) (c0 c1 c2 c3 c4 : Str)
    (rest : List Str) (hne : r ≠ [])
    (hfirst : ∀ c ∈ r.head?, isWhitespace c = false)
    (hlast : ∀ c ∈ r.getLast?, isWhitespace c = false)
    (hsep : occursIn recordSep r = false)
    (hend : "~!".toList.isSuffixOf r = false)
    (hcols : split r columnSep = c0 :: c1 :: c2 :: c3 :: c4 :: rest) :
    ∃ rec : TermRecord, parseData (r ++ recordSep) f = [rec]
      ∧ rec.value = .str c0 ∧ rec.preferred_name = .str c0
      ∧ rec.concept_id = .str c1 ∧ rec.ontology_id = .str c3 ∧ rec.full_id = .str c4
      ∧ (rest.length ≤ 3 → rec.ncbo_id = f)
      ∧ (∀ c5 c6 c7 c8 : Str, ∀ more : List Str,
          rest = c5 :: c6 :: c7 :: c8 :: more → rec.ncbo_id = .str c8) := by
  have hsplit : split (r ++ recordSep) recordSep = [r, []] := by
    have := splitGo_of_no_match recordSep (by decide) r []
      (recordSep_no_match r hsep hend)
    simpa [split] using this
  have htrim : trim r = r := trim_eq_self r hfirst hlast
  have hemp : r.isEmpty = false := by
    cases r with
    | nil => exact absurd rfl hne
    | cons c cs => rfl
  refine ⟨rowRecord (split r columnSep) f, ?_, ?_⟩
  · have ht : trim ([] : Str) = [] := rfl
    simp [parseData, hsplit, parseRows, htrim, hemp, ht]
  · rw [hcols]
    refine ⟨rfl, rfl, rfl, rfl, rfl, ?_, ?_⟩
    · intro hlen
      have : ¬ (c0 :: c1 :: c2 :: c3 :: c4 :: rest).length > 8 := by
        simp only [List.length_cons]; omega
      simp only [rowRecord, rowNcboId, if_neg this]
    · intro c5 c6 c7 c8 more hrest
      subst hrest
      simp [rowRecord, rowNcboId, index]

set_option maxRecDepth 100000 in
/-- Witness for C1: the scenario of the specification, a record of eight
columns with fallback `1494`. -/
theorem parseData_single_record_witness :
    ∃ rec : TermRecord,
      parseData ("Mus musculus|birnlex_161|preferred name|29684|http://example.org/birnlex_161|Mus musculus|Mus musculus|BIRNLex".toList
          ++ recordSep) (.str "1494".toList) = [rec]
      ∧ rec.value = .str "Mus musculus".toList
      ∧ rec.preferred_name = .str "Mus musculus".toList
      ∧ rec.concept_id = .str "birnlex_161".toList
      ∧ rec.ontology_id = .str "29684".toList
      ∧ rec.full_id = .str "http://example.org/birnlex_161".toList
      ∧ rec.ncbo_id = .str "1494".toList := by
  obtain ⟨rec, h, h0, h1, h2, h3, h4, h5, _⟩ := parseData_single_record
    "Mus musculus|birnlex_161|preferred name|29684|http://example.org/birnlex_161|Mus musculus|Mus musculus|BIRNLex".toList
    (.str "1494".toList) "Mus musculus".toList "birnlex_161".toList "preferred name".toList
    "29684".toList "http://example.org/birnlex_161".toList
    ["Mus musculus".toList, "Mus musculus".toList, "BIRNLex".toList]
    (by decide) (by decide) (by decide) (by decide) (by decide) (by decide)
  exact ⟨rec, h, h0, h1, h2, h3, h4, h5 (by decide)⟩

/-- C7 as stated fails: for the record `a|b`, of two columns, `parseData`
returns one record whose `ontology_id` and `full_id` are `undefined`, not the
empty string. -/
theorem parseData_missing_column_is_undefined :
    (parseData "a|b".toList (.str "1494".toList)).map
        (fun rec => (rec.concept_id, rec.ontology_id, rec.full_id))
      = [(.str "b".toList, .undefined, .undefined)]
    ∧ JSVal.undefined ≠ JSVal.str [] := by
  decide

/-- C7, amended: for a record text `r` without `~!~` that is non-blank and
whose trimmed text splits at the bar into fewer than five columns,
`parseData` returns exactly one record; its `full_id` is `undefined`, its
`ontology_id` is `undefined` when there are at most three columns, its
`concept_id` is `undefined` when there is one column, and its `ncbo_id` is the
fallback. -/
theorem parseData_short_record (r : Str) (f : JSVal)
    (hblank : trim r ≠ [])
    (hsep : occursIn recordSep r = false)
    (hn : (split (trim r) columnSep).length < 5) :
    ∃ rec : TermRecord, parseData r f = [rec]
      ∧ rec.full_id = .undefined
      ∧ ((split (trim r) columnSep).length ≤ 3 → rec.ontology_id = .undefined)
      ∧ ((split (trim r) columnSep).length ≤ 1 → rec.concept_id = .undefined)
      ∧ rec.ncbo_id = f := by
  have hsplit : split r recordSep = [r] := by
    have := splitGo_of_no_occurrence recordSep r [] hsep
    simpa [split] using this
  have hemp : (trim r).isEmpty = false := by
    cases h : trim r with
    | nil => exact absurd h hblank
    | cons c cs => rfl
  refine ⟨rowRecord (split (trim r) columnSep) f, ?_, ?_⟩
  · simp [parseData, hsplit, parseRows, hemp]
  · generalize split (trim r) columnSep = cols at hn
    have hget : ∀ i : Nat, cols.length ≤ i → index cols (i : Int) = .undefined := by
      intro i hi
      have : cols[i]? = none := List.getElem?_eq_none hi
      simp [index, this]
    refine ⟨?_, ?_, ?_, ?_⟩
    · exact hget 4 (by omega)
    · intro h3; exact hget 3 (by omega)
    · intro h1; exact hget 1 (by omega)
    · have : ¬ cols.length > 8 := by omega
      simp [rowRecord, rowNcboId, this]

/-- Witness for C7: the record `a|b`. -/
theorem parseData_short_record_witness :
    ∃ rec : TermRecord, parseData "a|b".toList (.str "1494".toList) = [rec]
      ∧ rec.full_id = .undefined
      ∧ ((split (trim "a|b".toList) columnSep).length ≤ 3 → rec.ontology_id = .undefined)
      ∧ ((split (trim "a|b".toList) columnSep).length ≤ 1 → rec.concept_id = .undefined)
      ∧ rec.ncbo_id = .str "1494".toList :=
  parseData_short_record "a|b".toList (.str "1494".toList) (by decide) (by decide) (by decide)

/-! ## `paste` and `copy` -/

/-- C3 as stated fails in both directions.  For a target with `rel`
`ontology-1132-name` and a fully populated clipboard whose `ncbo_id` is
`11320`, the rule of the specification accepts (the filter `1132` is a
substring of `11320`) but `paste` changes nothing; with `ncbo_id` equal to
`name` the rule rejects, but `paste` sets the flag and writes the values,
because the pattern is matched against the whole `rel` attribute.  And a
wildcard target does not accept every fully populated clipboard: with
`ncbo_id` equal to `*` the pattern cannot be built and `paste` throws. -/
theorem paste_acceptance_differs_from_claimed_rule :
    (claimedPasteAccepts
        ⟨.str "Mus".toList, .str "c1".toList, .str "o1".toList, .str "11320".toList,
          .str "f1".toList⟩ "ontology-1132-name".toList = true
      ∧ paste fragmentOnly ⟨[], false, ⟨.str "Mus".toList, .str "c1".toList,
            .str "o1".toList, .str "11320".toList, .str "f1".toList⟩, none⟩
          ⟨[], ⟨some "b".toList, some "ontology-1132-name".toList, false, []⟩, []⟩
        = .ok (⟨[], false, ⟨.str "Mus".toList, .str "c1".toList, .str "o1".toList,
            .str "11320".toList, .str "f1".toList⟩, none⟩,
          ⟨[], ⟨some "b".toList, some "ontology-1132-name".toList, false, []⟩, []⟩, false))
    ∧ (claimedPasteAccepts
        ⟨.str "Mus".toList, .str "c1".toList, .str "o1".toList, .str "name".toList,
          .str "f1".toList⟩ "ontology-1132-name".toList = false
      ∧ paste fragmentOnly ⟨[], false, ⟨.str "Mus".toList, .str "c1".toList,
            .str "o1".toList, .str "name".toList, .str "f1".toList⟩, none⟩
          ⟨[], ⟨some "b".toList, some "ontology-1132-name".toList, false, []⟩, []⟩
        = .ok (⟨[], true, ⟨.str "Mus".toList, .str "c1".toList, .str "o1".toList,
            .str "name".toList, .str "f1".toList⟩, none⟩,
          ⟨[], ⟨some "b".toList, some "ontology-1132-name".toList, false, "Mus".toList⟩,
            [⟨some "b-full_id".toList, none, true, "f1".toList⟩,
             ⟨some "b-ncbo_id".toList, none, true, "name".toList⟩,
             ⟨some "b-ontology_id".toList, none, true, "o1".toList⟩,
             ⟨some "b-concept_id".toList, none, true, "c1".toList⟩]⟩, false))
    ∧ paste fragmentOnly ⟨[], false, ⟨.str "Mus".toList, .str "c1".toList,
          .str "o1".toList, .str "*".toList, .str "f1".toList⟩, none⟩
        ⟨[], ⟨some "b".toList, some "ontology-all-name".toList, false, []⟩, []⟩
      = .error .syntaxError := by
  decide

/-- C3, amended: for a clipboard of five texts, `paste` is accepted (it runs
the branch that sets the suppress-search flag, assigns the copied text and
writes the four companions) exactly when `sourceValue`, `concept_id`,
`ncbo_id` and `full_id` are all non-empty, `ncbo_id` compiles as a regular
expression, and the whole `rel` attribute of the target is matched somewhere
by that expression or contains `all`; an `ncbo_id` without syntax characters
compiles to the test that its text occurs in `rel`.  An accepted `paste` into
a target whose companions can be looked up returns `false` with the flag set
and the field assigned the copied text, and the four companions read back as
the clipboard values when these are kept by the target.  When the clipboard
is fully populated and `ncbo_id` does not compile, `paste` throws.  In every
other case `paste` returns `false` and changes nothing. -/
theorem paste_accepts_iff_pattern_matches (P : Platform) (st : State) (sc : Scope)
    (sv cid oid nid fid rel : Str)
    (hclip : st.clipboard = ⟨.str sv, .str cid, .str oid, .str nid, .str fid⟩)
    (hrel : sc.field.rel = some rel) :
    (nid.all (fun c => !regexSyntaxChar c) = true →
        newRegExp P nid = .ok (fun s => occursIn nid s))
    ∧ (∀ pattern : Str → Bool, newRegExp P nid = .ok pattern →
        (((sv ≠ [] ∧ cid ≠ [] ∧ nid ≠ [] ∧ fid ≠ [])
            ∧ (pattern rel = true ∨ occursIn "all".toList rel = true)) →
          paste P st sc = (pasteValues P st sc).map (fun r => (r.1, r.2, false))
            ∧ (selectable sc = true →
              ∃ sc1 : Scope, paste P st sc = .ok ({ st with noSearch := true }, sc1, false)
                ∧ sc1.field = setValue sc.field sv
                ∧ (keepsValue sc "concept_id".toList cid = true →
                    keepsValue sc "ontology_id".toList oid = true →
                    keepsValue sc "ncbo_id".toList nid = true →
                    keepsValue sc "full_id".toList fid = true →
                    getInputValue sc1 "concept_id".toList = .ok cid
                      ∧ getInputValue sc1 "ontology_id".toList = .ok oid
                      ∧ getInputValue sc1 "ncbo_id".toList = .ok nid
                      ∧ getInputValue sc1 "full_id".toList = .ok fid)))
        ∧ (¬ ((sv ≠ [] ∧ cid ≠ [] ∧ nid ≠ [] ∧ fid ≠ [])
            ∧ (pattern rel = true ∨ occursIn "all".toList rel = true)) →
          paste P st sc = .ok (st, sc, false)))
    ∧ (∀ e : Failure, newRegExp P nid = .error e →
        ((sv ≠ [] ∧ cid ≠ [] ∧ nid ≠ [] ∧ fid ≠ []) → paste P st sc = .error e)
        ∧ (¬ (sv ≠ [] ∧ cid ≠ [] ∧ nid ≠ [] ∧ fid ≠ []) →
          paste P st sc = .ok (st, sc, false))) := by
  have hp := paste_eq P st sc sv cid oid nid fid rel hclip hrel
  refine ⟨newRegExp_literal P nid, ?_, ?_⟩
  · intro pattern hpat
    refine ⟨?_, ?_⟩
    · intro hacc
      have hbranch : paste P st sc
          = (pasteValues P st sc).map (fun r => (r.1, r.2, false)) := by
        rw [hp, if_pos hacc.1, hpat]
        simp only [if_pos hacc.2]
        cases pasteValues P st sc <;> rfl
      refine ⟨hbranch, ?_⟩
      intro hsel
      obtain ⟨sc1, e, g⟩ := pasteValues_total P st sc hsel
      refine ⟨sc1, ?_, ?_, ?_⟩
      · rw [hbranch, e]; rfl
      · rw [g, hclip]; rfl
      · intro h1 h2 h3 h4
        obtain ⟨sc2, e2, r⟩ := pasteValues_str P st sc sv cid oid nid fid hclip hsel h1 h2 h3 h4
        rw [e] at e2
        have hsc : sc1 = sc2 := by
          injection e2 with e3
          injection e3
        rw [hsc]
        exact r
    · intro hno
      rw [hp, hpat]
      by_cases hfull : sv ≠ [] ∧ cid ≠ [] ∧ nid ≠ [] ∧ fid ≠ []
      · have hm : ¬ (pattern rel = true ∨ occursIn "all".toList rel = true) :=
          fun h => hno ⟨hfull, h⟩
        simp only [if_pos hfull, if_neg hm]
      · simp only [if_neg hfull]
  · intro e he
    refine ⟨?_, ?_⟩
    · intro hfull
      rw [hp, if_pos hfull, he]
    · intro hfull
      rw [hp, if_neg hfull]

/-- Witness for C3: a wildcard target accepts a clipboard whose `full_id`
holds a `&`, and a target with `rel` `ontology-1132-name` rejects a clipboard
whose `ncbo_id` is `29684`. -/
theorem paste_accepts_iff_pattern_matches_witness :
    (∃ sc1 : Scope,
      paste fragmentOnly ⟨[], false, ⟨.str "Mus".toList, .str "c1".toList, .str "o1".toList,
            .str "29684".toList, .str "http://x/?a=1&b=2".toList⟩, none⟩
          ⟨[], ⟨some "b".toList, some "ontology-all-name".toList, false, []⟩, []⟩
        = .ok (⟨[], true, ⟨.str "Mus".toList, .str "c1".toList, .str "o1".toList,
            .str "29684".toList, .str "http://x/?a=1&b=2".toList⟩, none⟩, sc1, false)
      ∧ sc1.field = ⟨some "b".toList, some "ontology-all-name".toList, false, "Mus".toList⟩)
    ∧ paste fragmentOnly ⟨[], false, ⟨.str "Mus".toList, .str "c1".toList, .str "o1".toList,
          .str "29684".toList, .str "f1".toList⟩, none⟩
        ⟨[], ⟨some "b".toList, some "ontology-1132-name".toList, false, []⟩, []⟩
      = .ok (⟨[], false, ⟨.str "Mus".toList, .str "c1".toList, .str "o1".toList,
          .str "29684".toList, .str "f1".toList⟩, none⟩,
        ⟨[], ⟨some "b".toList, some "ontology-1132-name".toList, false, []⟩, []⟩, false) := by
  have hacc := paste_accepts_iff_pattern_matches fragmentOnly
    ⟨[], false, ⟨.str "Mus".toList, .str "c1".toList, .str "o1".toList,
      .str "29684".toList, .str "http://x/?a=1&b=2".toList⟩, none⟩
    ⟨[], ⟨some "b".toList, some "ontology-all-name".toList, false, []⟩, []⟩
    "Mus".toList "c1".toList "o1".toList "29684".toList "http://x/?a=1&b=2".toList
    "ontology-all-name".toList rfl rfl
  have hrej := paste_accepts_iff_pattern_matches fragmentOnly
    ⟨[], false, ⟨.str "Mus".toList, .str "c1".toList, .str "o1".toList,
      .str "29684".toList, .str "f1".toList⟩, none⟩
    ⟨[], ⟨some "b".toList, some "ontology-1132-name".toList, false, []⟩, []⟩
    "Mus".toList "c1".toList "o1".toList "29684".toList "f1".toList
    "ontology-1132-name".toList rfl rfl
  refine ⟨?_, ?_⟩
  · obtain ⟨sc1, e, g, _⟩ := ((hacc.2.1 _ (hacc.1 (by decide))).1
      ⟨⟨by decide, by decide, by decide, by decide⟩, Or.inr (by decide)⟩).2 (by decide)
    exact ⟨sc1, e, g⟩
  · exact (hrej.2.1 _ (hrej.1 (by decide))).2 (by decide)

/-- C9: when one of `sourceValue`, `concept_id`, `ncbo_id`, `full_id` of the
clipboard is empty or absent, `paste` returns `false` without an error and
leaves the chooser state (the suppress-search flag included) and every input
of the target's scope as they were. -/
theorem paste_unfilled_clipboard_no_effect (P : Platform) (st : State) (sc : Scope)
    (h : st.clipboard.sourceValue.truthy = false ∨ st.clipboard.concept_id.truthy = false
      ∨ st.clipboard.ncbo_id.truthy = false ∨ st.clipboard.full_id.truthy = false) :
    paste P st sc = .ok (st, sc, false) := by
  have : (st.clipboard.sourceValue.truthy && st.clipboard.concept_id.truthy
      && st.clipboard.ncbo_id.truthy && st.clipboard.full_id.truthy) = false := by
    rcases h with h | h | h | h <;> simp [h]
  simp [paste, this]

/-- Witness for C9: a clipboard with `full_id` missing, and a target that
would otherwise accept. -/
theorem paste_unfilled_clipboard_no_effect_witness :
    paste fragmentOnly ⟨[], false, ⟨.str "Mus".toList, .str "c1".toList, .str "o1".toList,
          .str "1132".toList, .undefined⟩, none⟩
        ⟨[], ⟨some "b".toList, some "ontology-all-name".toList, false, "x".toList⟩,
          [⟨some "b-concept_id".toList, none, true, "old".toList⟩]⟩
      = .ok (⟨[], false, ⟨.str "Mus".toList, .str "c1".toList, .str "o1".toList,
          .str "1132".toList, .undefined⟩, none⟩,
        ⟨[], ⟨some "b".toList, some "ontology-all-name".toList, false, "x".toList⟩,
          [⟨some "b-concept_id".toList, none, true, "old".toList⟩]⟩, false) :=
  paste_unfilled_clipboard_no_effect _ _ _ (Or.inr (Or.inr (Or.inr rfl)))

/-- C4 fails on the code.  The source field `a` has the companion value
`c" x="d` for `concept_id`, and its other companions and its text are plain.
After `copy` of `a` and `paste` into a wildcard target without companion
fields, the `concept_id` of the target reads `c`: the value is concatenated
unescaped into the markup of the new hidden input and is cut at the quote when
the markup is parsed.  Into a target whose companion exists the same value is
pasted unchanged. -/
theorem copy_paste_value_with_quote :
    getInputValue
        ⟨[], ⟨some "a".toList, some "ontology-all-name".toList, false, "Mus".toList⟩,
          [⟨some "a-concept_id".toList, none, true, "c\" x=\"d".toList⟩,
           ⟨some "a-ontology_id".toList, none, true, "1".toList⟩,
           ⟨some "a-ncbo_id".toList, none, true, "1132".toList⟩,
           ⟨some "a-full_id".toList, none, true, "http://x".toList⟩]⟩ "concept_id".toList
      = .ok "c\" x=\"d".toList
    ∧ (((copy ⟨[], false, Clipboard.initial, none⟩
        ⟨[], ⟨some "a".toList, some "ontology-all-name".toList, false, "Mus".toList⟩,
          [⟨some "a-concept_id".toList, none, true, "c\" x=\"d".toList⟩,
           ⟨some "a-ontology_id".toList, none, true, "1".toList⟩,
           ⟨some "a-ncbo_id".toList, none, true, "1132".toList⟩,
           ⟨some "a-full_id".toList, none, true, "http://x".toList⟩]⟩).bind
        (fun r => paste fragmentOnly r.1
          ⟨[], ⟨some "b".toList, some "ontology-all-name".toList, false, []⟩, []⟩)).bind
        (fun r => getInputValue r.2.1 "concept_id".toList))
      = .ok "c".toList
    ∧ (((copy ⟨[], false, Clipboard.initial, none⟩
        ⟨[], ⟨some "a".toList, some "ontology-all-name".toList, false, "Mus".toList⟩,
          [⟨some "a-concept_id".toList, none, true, "c\" x=\"d".toList⟩,
           ⟨some "a-ontology_id".toList, none, true, "1".toList⟩,
           ⟨some "a-ncbo_id".toList, none, true, "1132".toList⟩,
           ⟨some "a-full_id".toList, none, true, "http://x".toList⟩]⟩).bind
        (fun r => paste fragmentOnly r.1
          ⟨[], ⟨some "b".toList, some "ontology-all-name".toList, false, []⟩,
            [⟨some "b-concept_id".toList, none, true, []⟩]⟩)).bind
        (fun r => getInputValue r.2.1 "concept_id".toList))
      = .ok "c\" x=\"d".toList := by
  decide

/-! ## Companion fields -/

/-- C6 fails on the code.  The scope of the field `b` holds no input named
`b-concept_id`.  A first write of the value `c" x="d` inserts a hidden input
that holds `c`, because the value is concatenated unescaped into markup.  A
first write of a value that closes the attribute and opens a second `input`
tag inserts two inputs of that name, and after the second write the scope
still holds two of them.  When the input exists beforehand, the same two
writes leave one input, which reads as the second value. -/
theorem setInputValue_unescaped_markup :
    (inputsNamed ⟨[], ⟨some "b".toList, some "ontology-all-name".toList, false, []⟩, []⟩
        "b-concept_id".toList).length = 0
    ∧ (setInputValue fragmentOnly
          ⟨[], ⟨some "b".toList, some "ontology-all-name".toList, false, []⟩, []⟩
          "concept_id".toList (.str "c\" x=\"d".toList)).bind
        (fun sc1 => getInputValue sc1 "concept_id".toList)
      = .ok "c".toList
    ∧ ((setInputValue fragmentOnly
          ⟨[], ⟨some "b".toList, some "ontology-all-name".toList, false, []⟩, []⟩
          "concept_id".toList
          (.str "x\"/><input type=\"hidden\" name=\"b-concept_id\" value=\"y".toList)).bind
        (fun sc1 => setInputValue fragmentOnly sc1 "concept_id".toList (.str "z".toList))).map
          (fun sc2 => (inputsNamed sc2 "b-concept_id".toList).length)
      = .ok 2
    ∧ ((setInputValue fragmentOnly
          ⟨[], ⟨some "b".toList, some "ontology-all-name".toList, false, []⟩,
            [⟨some "b-concept_id".toList, none, true, []⟩]⟩
          "concept_id".toList
          (.str "x\"/><input type=\"hidden\" name=\"b-concept_id\" value=\"y".toList)).bind
        (fun sc1 => setInputValue fragmentOnly sc1 "concept_id".toList (.str "z".toList))).bind
          (fun sc2 => (getInputValue sc2 "concept_id".toList).map
            (fun v => ((inputsNamed sc2 "b-concept_id".toList).length, v)))
      = .ok (1, "z".toList) := by
  decide

/-- C10: the companion field name is the primary name, a dash and the
companion name, and for the four companion names this is injective: equal
companion field names come from equal primary names and equal companion
names. -/
theorem elementName_injective (p1 p2 c1 c2 : Str)
    (h1 : c1 ∈ companionNames) (h2 : c2 ∈ companionNames)
    (h : elementName (.str p1) c1 = elementName (.str p2) c2) :
    elementName (.str p1) c1 = p1 ++ "-".toList ++ c1 ∧ p1 = p2 ∧ c1 = c2 := by
  refine ⟨rfl, ?_⟩
  have hr := congrArg List.reverse h
  simp only [companionNames, List.mem_cons, List.mem_singleton, List.not_mem_nil,
    or_false] at h1 h2
  rcases h1 with h1 | h1 | h1 | h1 <;> rcases h2 with h2 | h2 | h2 | h2 <;> subst h1 h2 <;>
    simp [elementName, JSVal.toStr] at hr <;> simp [hr]

/-- Witness for C10: the companion `ncbo_id` of the field `species`. -/
theorem elementName_injective_witness :
    elementName (.str "species".toList) "ncbo_id".toList
        = "species".toList ++ "-".toList ++ "ncbo_id".toList
      ∧ "species".toList = "species".toList ∧ "ncbo_id".toList = "ncbo_id".toList :=
  elementName_injective "species".toList "species".toList "ncbo_id".toList "ncbo_id".toList
    (by decide) (by decide) rfl

/-! ## Clearing the companions -/

/-- C8 fails on the code.  For a field without companion inputs, the callback
of a fetch that returned the empty text writes `null` into markup, and each of
the four companions then reads `null` as a four-letter text; the `close`
callback on the same field, which writes the empty string, leaves each of them
reading empty, and so does the fetch callback when the companions exist
already.  For an answer that is `null` or `undefined` the callback throws
before it clears anything. -/
theorem fetched_no_results_companions_read_null :
    (fetched fragmentOnly ⟨[], false, Clipboard.initial, none⟩
        ⟨[], ⟨some "b".toList, some "ontology-1132-name".toList, false, "zzz".toList⟩, []⟩
        (fieldOntologyId "ontology-1132-name".toList) "zzz".toList (.str [])).map
          (fun r => companionNames.map (getInputValue r.2.1))
      = .ok [.ok "null".toList, .ok "null".toList, .ok "null".toList, .ok "null".toList]
    ∧ (close fragmentOnly
        ⟨[], ⟨some "b".toList, some "ontology-1132-name".toList, false, "zzz".toList⟩, []⟩
        false).map (fun sc => companionNames.map (getInputValue sc))
      = .ok [.ok [], .ok [], .ok [], .ok []]
    ∧ (fetched fragmentOnly ⟨[], false, Clipboard.initial, none⟩
        ⟨[], ⟨some "b".toList, some "ontology-1132-name".toList, false, "zzz".toList⟩,
          [⟨some "b-concept_id".toList, none, true, "c1".toList⟩,
           ⟨some "b-ontology_id".toList, none, true, "o1".toList⟩,
           ⟨some "b-ncbo_id".toList, none, true, "n1".toList⟩,
           ⟨some "b-full_id".toList, none, true, "f1".toList⟩]⟩
        (fieldOntologyId "ontology-1132-name".toList) "zzz".toList (.str [])).map
          (fun r => companionNames.map (getInputValue r.2.1))
      = .ok [.ok [], .ok [], .ok [], .ok []]
    ∧ fetched fragmentOnly ⟨[], false, Clipboard.initial, none⟩
        ⟨[], ⟨some "b".toList, some "ontology-1132-name".toList, false, "zzz".toList⟩, []⟩
        (fieldOntologyId "ontology-1132-name".toList) "zzz".toList .null
      = .error .typeError := by
  decide

/-! ## The suggestion cache -/

/-- C5 fails on the code.  The field with `rel` `ontology-1132-name` searches in
ontology `1132`, the field with `rel` `ontology-all-name` in all.  Before any
store a request for `mus` through the second field starts a fetch of its own
url, without an ontology; after the answer to the first field's request for
`mus` was stored, the same request through the second field starts no fetch
and is answered from the cache with the records fetched for ontology `1132`,
because the cache is keyed by the query alone. -/
theorem source_answers_from_other_fields_store :
    fieldOntologyId "ontology-1132-name".toList = .str "1132".toList
    ∧ fieldOntologyId "ontology-all-name".toList = .str []
    ∧ source ⟨[], false, Clipboard.initial, none⟩ (.str "1132".toList) "mus".toList
      = .ok (.fetch
          "http://bioportal.bioontology.org/search/json_search/1132?q=mus&response=json&callback=?".toList
          "mus".toList)
    ∧ source ⟨[], false, Clipboard.initial, none⟩ (.str []) "mus".toList
      = .ok (.fetch
          "http://bioportal.bioontology.org/search/json_search/?q=mus&response=json&callback=?".toList
          "mus".toList)
    ∧ (fetched fragmentOnly ⟨[], false, Clipboard.initial, none⟩
        ⟨[], ⟨some "a".toList, some "ontology-1132-name".toList, false, "mus".toList⟩, []⟩
        (.str "1132".toList) "mus".toList (.str "a|b|c|d|e".toList)).bind
          (fun r => source r.1 (.str []) "mus".toList)
      = .ok (.respond (.records (parseData "a|b|c|d|e".toList (.str "1132".toList)))) := by
  decide

end OntologyChooser
